import Mathlib

/-!
Shallow embedding of the RadLabs market-making / volume-bot engine
(`market-maker.js` classes `TickMath`, `FillMonitor`, `InventoryTracker`,
`SpreadCalculator`, `MarketMaker`, and the simulated `VolumeBot`).
JavaScript numbers are modelled as exact rationals (`ℚ`) for the plain
arithmetic paths, and as exact reals (`ℝ`) where the source calls the
transcendental functions `Math.log` / `Math.pow` / `Math.sqrt`.
-/

namespace RadLabs

/-- Order side, the `'bid'` / `'ask'` strings of the source. -/
inductive Side where
  | bid
  | ask
deriving DecidableEq

/-- Position lifecycle status strings of the source
(`'open'`, `'filling'`, `'filled'`, `'cancelled'`). -/
inductive Status where
  | open'
  | filling
  | filled
  | cancelled
deriving DecidableEq

/-- Error raised by `TickMath.priceToTick` (`throw new Error('Price must be positive')`);
the spec names it `InvalidPrice`. -/
inductive TickError where
  | invalidPrice
deriving DecidableEq

/-- `TickMath.MIN_TICK = -887272`. -/
def MIN_TICK : ℤ := -887272

/-- `TickMath.MAX_TICK = 887272`. -/
def MAX_TICK : ℤ := 887272

/-- JavaScript `Math.round`: rounds to the nearest integer, ties toward `+∞`
(`Math.round(x) = Math.floor(x + 0.5)`). -/
def jsRound (x : ℚ) : ℤ := ⌊x + 1/2⌋

/-- `TickMath.nearestUsableTick(tick, tickSpacing)`:
`rounded = Math.round(tick / tickSpacing) * tickSpacing`, then
`Math.max(MIN_TICK, Math.min(MAX_TICK, rounded))`. -/
def nearestUsableTick (tick tickSpacing : ℤ) : ℤ :=
  max MIN_TICK (min MAX_TICK (jsRound ((tick : ℚ) / (tickSpacing : ℚ)) * tickSpacing))

/-- `TickMath.priceToTick(price)`: throws for `price <= 0`, otherwise
`Math.floor(Math.log(price) / Math.log(1.0001))` clamped to
`[MIN_TICK, MAX_TICK]`. -/
noncomputable def priceToTick (price : ℝ) : Except TickError ℤ :=
  if price ≤ 0 then .error .invalidPrice
  else
    let tick := ⌊Real.log price / Real.log 1.0001⌋
    .ok (max MIN_TICK (min MAX_TICK tick))

/-- Modelled from the spec: the spec's stated invariant for `priceToTick` is
`tick = round(log(price)/log(base))`, clamped — i.e. `Math.round` where the
source uses `Math.floor`.  Comparator definition for the refinement claim. -/
noncomputable def specPriceToTick (price : ℝ) : Except TickError ℤ :=
  if price ≤ 0 then .error .invalidPrice
  else .ok (max MIN_TICK (min MAX_TICK (round (Real.log price / Real.log 1.0001))))

/-- `TickMath.tickToPrice(tick) = Math.pow(1.0001, tick)`. -/
noncomputable def tickToPrice (tick : ℤ) : ℝ := (1.0001 : ℝ) ^ tick

/-- A pseudo-limit-order position as produced by
`PositionManager.createLimitOrder`.  `lowerPrice` / `upperPrice` stand for
`TickMath.tickToPrice(position.lowerTick)` / `...(position.upperTick)` — the
values `FillMonitor.checkFills` computes at the top of its loop body; they are
carried as fields so that the fill-detection step is stated over the prices it
actually compares. -/
structure MMPosition where
  side : Side
  targetPrice : ℚ
  sizeBTC : ℚ
  lowerPrice : ℚ
  upperPrice : ℚ
  status : Status
deriving DecidableEq

/-- Body of the `for` loop of `FillMonitor.checkFills` for one position: the
three sequential `if` statements, each seeing the status mutation made by the
previous one. -/
def checkFillsStep (position : MMPosition) (currentPrice : ℚ) : MMPosition :=
  let isInRange := position.lowerPrice ≤ currentPrice ∧ currentPrice ≤ position.upperPrice
  let p1 := if isInRange ∧ position.status = .open'
            then { position with status := .filling } else position
  let p2 := if p1.side = .bid ∧ p1.upperPrice < currentPrice ∧ p1.status = .filling
            then { p1 with status := .filled } else p1
  let p3 := if p2.side = .ask ∧ currentPrice < p2.lowerPrice ∧ p2.status = .filling
            then { p2 with status := .filled } else p2
  p3

/-- A `this.trades` record appended by `InventoryTracker.recordFill`
(the `Date.now()` timestamp is omitted). -/
structure TradeRecord where
  buy : Bool
  price : ℚ
  btcAmount : ℚ
  radAmount : ℚ
deriving DecidableEq

/-- `InventoryTracker` state: `btc`, `rad`, `targetRatio` (0.5 in the
constructor) and the `trades` log. -/
structure InventoryTracker where
  btc : ℚ
  rad : ℚ
  targetRatio : ℚ
  trades : List TradeRecord
deriving DecidableEq

/-- `InventoryTracker.recordFill(position, fillPrice)`: bid fills spend BTC and
receive RAD (`sizeBTC / fillPrice * 100`, RAD has 2 decimals); ask fills do the
opposite.  There is no duplicate-order guard in the source. -/
def recordFill (inv : InventoryTracker) (position : MMPosition) (fillPrice : ℚ) :
    InventoryTracker :=
  if position.side = .bid then
    { inv with
      btc := inv.btc - position.sizeBTC
      rad := inv.rad + position.sizeBTC / fillPrice * 100
      trades := inv.trades ++
        [⟨true, fillPrice, position.sizeBTC, position.sizeBTC / fillPrice * 100⟩] }
  else
    let radSold := position.sizeBTC / fillPrice * 100
    { inv with
      btc := inv.btc + position.sizeBTC
      rad := inv.rad - radSold
      trades := inv.trades ++ [⟨false, fillPrice, position.sizeBTC, radSold⟩] }

/-- `InventoryTracker.getTotalValueBTC(currentPrice) = btc + rad/100 * price`. -/
def getTotalValueBTC (inv : InventoryTracker) (currentPrice : ℚ) : ℚ :=
  inv.btc + inv.rad / 100 * currentPrice

/-- `InventoryTracker.getImbalance(currentPrice)`: `btc/totalValue - targetRatio`,
with the source's explicit `totalValueBTC === 0` guard returning 0. -/
def getImbalance (inv : InventoryTracker) (currentPrice : ℚ) : ℚ :=
  let totalValueBTC := inv.btc + inv.rad / 100 * currentPrice
  if totalValueBTC = 0 then 0
  else inv.btc / totalValueBTC - inv.targetRatio

/-- `InventoryTracker.needsRebalance(currentPrice, threshold)`. -/
def needsRebalance (inv : InventoryTracker) (currentPrice threshold : ℚ) : Bool :=
  |getImbalance inv currentPrice| > threshold

/-- `InventoryTracker.init(btcAmount, currentPrice)`: start 50/50. -/
def inventoryInit (btcAmount currentPrice : ℚ) : InventoryTracker :=
  { btc := btcAmount / 2
    rad := btcAmount / 2 / currentPrice * 100
    targetRatio := 1/2
    trades := [] }

/-- `SpreadCalculator` constructor constant `baseSpreadBPS = 100`. -/
def baseSpreadBPS : ℚ := 100

/-- `SpreadCalculator` constructor constant `minSpreadBPS = 50`. -/
def minSpreadBPS : ℚ := 50

/-- `SpreadCalculator` constructor constant `maxSpreadBPS = 200`. -/
def maxSpreadBPS : ℚ := 200

/-- Return value of `SpreadCalculator.calculateSpread`. -/
structure SpreadResult where
  spreadBPS : ℚ
  bidSpread : ℚ
  askSpread : ℚ
deriving DecidableEq

/-- `SpreadCalculator.calculateSpread({inventory, currentPrice, recentVolatility,
poolVolume24h})`: base spread, ×1.2 on >10% inventory imbalance either way,
×1.5 on volatility > 5%, ×1.3 on 24h volume < 100, clamped to
`[minSpreadBPS, maxSpreadBPS]`; bid/ask half-spreads are each half of it. -/
def calculateSpread (inventory : InventoryTracker)
    (currentPrice recentVolatility poolVolume24h : ℚ) : SpreadResult :=
  let imbalance := getImbalance inventory currentPrice
  let s0 := baseSpreadBPS
  let s1 := if imbalance > 0.1 then s0 * 1.2
            else if imbalance < -0.1 then s0 * 1.2
            else s0
  let s2 := if recentVolatility > 0.05 then s1 * 1.5 else s1
  let s3 := if poolVolume24h < 100 then s2 * 1.3 else s2
  let spreadBPS := max minSpreadBPS (min maxSpreadBPS s3)
  ⟨spreadBPS, spreadBPS / 2, spreadBPS / 2⟩

/-- Return value of `SpreadCalculator.getQuotes`. -/
structure Quotes where
  bid : ℚ
  ask : ℚ
  mid : ℚ
  spread : ℚ
  spreadBPS : ℚ
deriving DecidableEq

/-- `SpreadCalculator.getQuotes({currentPrice, spread, inventory})`: skews the
half-spreads ×0.8 / ×1.2 by inventory imbalance, then
`bid = price*(1 - bidSpread/10000)`, `ask = price*(1 + askSpread/10000)`. -/
def getQuotes (currentPrice : ℚ) (spread : SpreadResult)
    (inventory : InventoryTracker) : Quotes :=
  let imbalance := getImbalance inventory currentPrice
  let pair :=
    if imbalance > 0.1 then (spread.bidSpread * 1.2, spread.askSpread * 0.8)
    else if imbalance < -0.1 then (spread.bidSpread * 0.8, spread.askSpread * 1.2)
    else (spread.bidSpread, spread.askSpread)
  let bidPrice := currentPrice * (1 - pair.1 / 10000)
  let askPrice := currentPrice * (1 + pair.2 / 10000)
  ⟨bidPrice, askPrice, currentPrice, askPrice - bidPrice,
    (askPrice - bidPrice) / currentPrice * 10000⟩

/-- `MarketMaker.pnl` (the `fees` field of the source is never written and
omitted; `trades` is the fill counter). -/
structure PnL where
  realized : ℚ
  unrealized : ℚ
  trades : ℕ
deriving DecidableEq

/-- The `MarketMaker` state the orchestration loop mutates. -/
structure MarketMaker where
  inventory : InventoryTracker
  initialCapital : ℚ
  pnl : PnL
deriving DecidableEq

/-- `MarketMaker.run` step 2 body for one order with `fill.status === 'filled'`:
`recordFill(fill, currentPrice)`, `pnl.trades++`, and
`pnl.realized += spreadCapture` where spread capture is
`(currentPrice - targetPrice) * sizeBTC / targetPrice` for bids and
`(targetPrice - currentPrice) * sizeBTC / currentPrice` for asks. -/
def processFilledOrder (mm : MarketMaker) (fill : MMPosition) (currentPrice : ℚ) :
    MarketMaker :=
  let spreadCapture :=
    if fill.side = .bid
    then (currentPrice - fill.targetPrice) * fill.sizeBTC / fill.targetPrice
    else (fill.targetPrice - currentPrice) * fill.sizeBTC / currentPrice
  { mm with
    inventory := recordFill mm.inventory fill currentPrice
    pnl := { mm.pnl with
             trades := mm.pnl.trades + 1
             realized := mm.pnl.realized + spreadCapture } }

/-- `MarketMaker.run` step 8:
`pnl.unrealized = inventory.getTotalValueBTC(currentPrice) - initialCapital`. -/
def updateUnrealized (mm : MarketMaker) (currentPrice : ℚ) : MarketMaker :=
  { mm with
    pnl := { mm.pnl with
             unrealized := getTotalValueBTC mm.inventory currentPrice - mm.initialCapital } }

/-- `MarketMaker.config.riskLimits.maxInventorySkew = 0.2`. -/
def maxInventorySkew : ℚ := 0.2

/-- `MarketMaker.rebalance(currentPrice)`: when `|imbalance|` exceeds
`maxInventorySkew`, the computed swap size is
`getTotalValueBTC(currentPrice) * |imbalance| / 2` (in BTC); otherwise the
method does nothing. -/
def rebalanceSwapAmountBTC (inv : InventoryTracker) (currentPrice : ℚ) : Option ℚ :=
  let imbalance := getImbalance inv currentPrice
  if |imbalance| > maxInventorySkew then
    some (getTotalValueBTC inv currentPrice * |imbalance| / 2)
  else none

/-- Modelled from the spec: executing the rebalance swap computed by
`MarketMaker.rebalance` at the current price (the source only logs the swap —
"In production: execute swap via RadFi API").  A positive imbalance swaps
`amountBTC` of BTC into RAD at `currentPrice`; a negative one swaps the same
BTC value of RAD back into BTC.  Value is exchanged 1:1 at `currentPrice`. -/
def execRebalanceSwap (inv : InventoryTracker) (amountBTC currentPrice : ℚ) :
    InventoryTracker :=
  if getImbalance inv currentPrice > 0 then
    { inv with btc := inv.btc - amountBTC
               rad := inv.rad + amountBTC / currentPrice * 100 }
  else
    { inv with btc := inv.btc + amountBTC
               rad := inv.rad - amountBTC / currentPrice * 100 }

/-- `VolumeBot.inventory`: `btc` and `token` balances. -/
structure VBInventory where
  btc : ℚ
  token : ℚ
deriving DecidableEq

/-- An inventory target `{btc, token}` as in `production-config.js`. -/
structure VBTarget where
  btc : ℚ
  token : ℚ
deriving DecidableEq

/-- `MM_CONFIG.rebalanceThreshold = 0.10`. -/
def rebalanceThreshold : ℚ := 0.10

/-- `MM_CONFIG.radfiFeeRate = 0.01`. -/
def radfiFeeRate : ℚ := 0.01

/-- `VolumeBot.marketBuy(btcAmount)` at the current price. -/
def marketBuy (inv : VBInventory) (btcAmount currentPrice : ℚ) : VBInventory :=
  { btc := inv.btc - btcAmount, token := inv.token + btcAmount / currentPrice }

/-- `VolumeBot.marketSell(tokenAmount)` at the current price. -/
def marketSell (inv : VBInventory) (tokenAmount currentPrice : ℚ) : VBInventory :=
  { btc := inv.btc + tokenAmount * currentPrice, token := inv.token - tokenAmount }

/-- `VolumeBot.rebalanceIfNeeded(target)`: when the BTC ratio is more than
`rebalanceThreshold` away from `target.btc`, buys tokens with
`totalValue * (currentRatio - targetRatio)` BTC, or sells
`totalValue * (targetRatio - currentRatio) / price` tokens. -/
def rebalanceIfNeeded (inv : VBInventory) (currentPrice : ℚ) (target : VBTarget) :
    VBInventory :=
  let totalValueBTC := inv.btc + inv.token * currentPrice
  let currentBTCRatio := inv.btc / totalValueBTC
  let targetBTCRatio := target.btc
  let skew := |currentBTCRatio - targetBTCRatio|
  if skew > rebalanceThreshold then
    if currentBTCRatio > targetBTCRatio then
      marketBuy inv (totalValueBTC * (currentBTCRatio - targetBTCRatio)) currentPrice
    else
      marketSell inv (totalValueBTC * (targetBTCRatio - currentBTCRatio) / currentPrice)
        currentPrice
  else inv

/-- A fill object as built by `VolumeBot.detectFills`
(`value = position.sizeBTC`). -/
structure VBFill where
  side : Side
  price : ℚ
  sizeBTC : ℚ
  sizeToken : ℚ
  value : ℚ
deriving DecidableEq

/-- The `VolumeBot.metrics` counters touched by `checkFillsAndReverse`
(`trades` counts the pushed trade records). -/
structure VBMetrics where
  volumeGenerated : ℚ
  volumeGenerated24h : ℚ
  tradingFeesPaid : ℚ
  trades : ℕ
deriving DecidableEq

/-- VolumeBot state touched by `checkFillsAndReverse`. -/
structure VBState where
  inventory : VBInventory
  metrics : VBMetrics
deriving DecidableEq

/-- The per-token config fields `checkFillsAndReverse` reads
(`reverseTradeRatio` carries the `|| 0.5` default already resolved). -/
structure VBConfig where
  pingPongEnabled : Bool
  reverseTradeRatio : ℚ
deriving DecidableEq

/-- Body of the `for (const fill of fills)` loop of
`VolumeBot.checkFillsAndReverse` for one detected fill: inventory update by
side, then — when ping-pong is enabled — an immediate reverse market trade of
`reverseTradeRatio` of the fill and `fill.value * 2` added to both volume
counters (else `fill.value` once), a trade record, and
`fill.value * radfiFeeRate` added to `tradingFeesPaid`. -/
def processFillAndReverse (cfg : VBConfig) (st : VBState) (fill : VBFill)
    (currentPrice : ℚ) : VBState :=
  let inv1 :=
    if fill.side = .bid then
      { btc := st.inventory.btc - fill.sizeBTC
        token := st.inventory.token + fill.sizeToken }
    else
      { btc := st.inventory.btc + fill.sizeBTC
        token := st.inventory.token - fill.sizeToken }
  let step2 :=
    if cfg.pingPongEnabled then
      let inv2 :=
        if fill.side = .bid then
          marketSell inv1 (fill.sizeToken * cfg.reverseTradeRatio) currentPrice
        else
          marketBuy inv1 (fill.sizeBTC * cfg.reverseTradeRatio) currentPrice
      (inv2, fill.value * 2)
    else (inv1, fill.value)
  { inventory := step2.1
    metrics :=
      { volumeGenerated := st.metrics.volumeGenerated + step2.2
        volumeGenerated24h := st.metrics.volumeGenerated24h + step2.2
        tradingFeesPaid := st.metrics.tradingFeesPaid + fill.value * radfiFeeRate
        trades := st.metrics.trades + 1 } }

/-- C1 (amended): `InventoryTracker.recordFill` has no duplicate-fill guard:
a second call with the same order and fill price is not rejected — it repeats
exactly the first call's balance adjustments on both the BTC and RAD sides. -/
theorem recordFill_second_application_changes_balances
    (inv : InventoryTracker) (position : MMPosition) (fillPrice : ℚ) :
    (recordFill (recordFill inv position fillPrice) position fillPrice).btc
        - (recordFill inv position fillPrice).btc
      = (recordFill inv position fillPrice).btc - inv.btc ∧
    (recordFill (recordFill inv position fillPrice) position fillPrice).rad
        - (recordFill inv position fillPrice).rad
      = (recordFill inv position fillPrice).rad - inv.rad := by
  rcases position with ⟨side, tp, size, lp, up, st⟩
  cases side <;> simp [recordFill]

/-- C1 counterexample: applying the same bid fill (order size 0.0001 BTC at
price 100) twice is not rejected and does not leave balances unchanged — the
BTC balance moves again on the second call. -/
theorem recordFill_duplicate_changes_balances_cex :
    (recordFill (recordFill ⟨1/2, 1/2, 1/2, []⟩ ⟨.bid, 100, 1/10000, 99, 101, .filled⟩ 100)
        ⟨.bid, 100, 1/10000, 99, 101, .filled⟩ 100).btc
      ≠ (recordFill ⟨1/2, 1/2, 1/2, []⟩ ⟨.bid, 100, 1/10000, 99, 101, .filled⟩ 100).btc := by
  norm_num [recordFill]

/-- C3: in one run of the fill-detection step of `FillMonitor.checkFills`, an
order transitions `open → filling` only when the current price lies in
`[lowerPrice, upperPrice]`, transitions `filling → filled` only when the price
has moved past the range in the execution direction (bid: above `upperPrice`;
ask: below `lowerPrice`), and never transitions directly `open → filled`. -/
theorem checkFills_state_machine (position : MMPosition) (currentPrice : ℚ) :
    (position.status = .open' → (checkFillsStep position currentPrice).status = .filling →
      position.lowerPrice ≤ currentPrice ∧ currentPrice ≤ position.upperPrice) ∧
    (position.status = .filling → (checkFillsStep position currentPrice).status = .filled →
      (position.side = .bid ∧ position.upperPrice < currentPrice) ∨
      (position.side = .ask ∧ currentPrice < position.lowerPrice)) ∧
    (position.status = .open' → (checkFillsStep position currentPrice).status ≠ .filled) := by
  rcases position with ⟨side, tp, size, lp, up, st⟩
  cases side <;> cases st <;>
    simp only [checkFillsStep] <;> split_ifs <;> simp_all
  all_goals linarith

/-- C3 witness: a bid order that is `open` while the price (3) is already past
its range `[1, 2]` does not become `filled` in a single detection step. -/
theorem checkFills_state_machine_witness :
    (checkFillsStep ⟨.bid, 1, 1, 1, 2, .open'⟩ 3).status ≠ .filled :=
  (checkFills_state_machine ⟨.bid, 1, 1, 1, 2, .open'⟩ 3).2.2 rfl

/-- C4 (amended): `nearestUsableTick(t, s)` returns the multiple of `s`
closest to `t` (ties broken toward `+∞`, as `Math.round` does), clamped to
`[MIN_TICK, MAX_TICK]`; whenever the rounded multiple already lies inside the
bounds, the result is that multiple, satisfies `result % s == 0`, and is at
least as close to `t` as every other multiple of `s`.  The divisibility
guarantee does not survive clamping, because `MIN_TICK`/`MAX_TICK` themselves
need not be multiples of `s`. -/
theorem nearestUsableTick_rounds_and_clamps (t s : ℤ) (hs : 0 < s)
    (hlo : MIN_TICK ≤ jsRound ((t : ℚ) / (s : ℚ)) * s)
    (hhi : jsRound ((t : ℚ) / (s : ℚ)) * s ≤ MAX_TICK) :
    nearestUsableTick t s = jsRound ((t : ℚ) / (s : ℚ)) * s ∧
    nearestUsableTick t s % s = 0 ∧
    ∀ m : ℤ, |nearestUsableTick t s - t| ≤ |m * s - t| := by
  have hmain : nearestUsableTick t s = jsRound ((t : ℚ) / (s : ℚ)) * s := by
    unfold nearestUsableTick MIN_TICK MAX_TICK at *
    set r := jsRound ((t : ℚ) / (s : ℚ)) * s with hr
    omega
  refine ⟨hmain, ?_, ?_⟩
  · rw [hmain]; exact Int.mul_emod_left _ _
  · intro m
    rw [hmain]
    set k : ℤ := jsRound ((t : ℚ) / (s : ℚ)) with hk
    have hsQ : (0 : ℚ) < (s : ℚ) := by exact_mod_cast hs
    have hfl : (k : ℚ) ≤ (t : ℚ) / (s : ℚ) + 1/2 := by
      rw [hk, jsRound]; exact Int.floor_le _
    have hfu : (t : ℚ) / (s : ℚ) + 1/2 < (k : ℚ) + 1 := by
      rw [hk, jsRound]; exact Int.lt_floor_add_one _
    have hbound : |(k : ℚ) - (t : ℚ) / (s : ℚ)| ≤ 1/2 := by
      rw [abs_le]; constructor <;> linarith
    have key : |(k : ℚ) - (t : ℚ) / (s : ℚ)| ≤ |(m : ℚ) - (t : ℚ) / (s : ℚ)| := by
      rcases lt_trichotomy m k with h | h | h
      · have hm1 : (m : ℚ) ≤ (k : ℚ) - 1 := by
          exact_mod_cast Int.le_sub_one_of_lt h
        have h3 : (t : ℚ) / (s : ℚ) - (m : ℚ) ≤ |(m : ℚ) - (t : ℚ) / (s : ℚ)| := by
          rw [abs_sub_comm]; exact le_abs_self _
        linarith [abs_le.mp hbound]
      · simp [h]
      · have hm1 : (k : ℚ) + 1 ≤ (m : ℚ) := by
          exact_mod_cast Int.add_one_le_iff.mpr h
        have h3 : (m : ℚ) - (t : ℚ) / (s : ℚ) ≤ |(m : ℚ) - (t : ℚ) / (s : ℚ)| :=
          le_abs_self _
        linarith [abs_le.mp hbound]
    have habs : ∀ j : ℤ, |(j : ℚ) * (s : ℚ) - (t : ℚ)|
        = |(j : ℚ) - (t : ℚ) / (s : ℚ)| * (s : ℚ) := by
      intro j
      have hj : ((j : ℚ) - (t : ℚ) / (s : ℚ)) * (s : ℚ) = (j : ℚ) * (s : ℚ) - (t : ℚ) := by
        field_simp
      rw [← hj, abs_mul, abs_of_pos hsQ]
    have final : |(k : ℚ) * (s : ℚ) - (t : ℚ)| ≤ |(m : ℚ) * (s : ℚ) - (t : ℚ)| := by
      rw [habs k, habs m]
      exact mul_le_mul_of_nonneg_right key (le_of_lt hsQ)
    exact_mod_cast final

/-- C4 witness: for `t = 350`, `s = 200` the rounded multiple `400` is inside
the tick bounds; the result is divisible by `200` and at least as close to
`350` as the multiple `2 * 200`. -/
theorem nearestUsableTick_rounds_and_clamps_witness :
    nearestUsableTick 350 200 % 200 = 0 ∧
    |nearestUsableTick 350 200 - 350| ≤ |2 * 200 - 350| := by
  have hr : jsRound ((350 : ℤ) / (200 : ℤ) : ℚ) = 2 := by
    norm_num [jsRound]
  have h := nearestUsableTick_rounds_and_clamps 350 200 (by norm_num)
    (by rw [hr]; decide) (by rw [hr]; decide)
  exact ⟨h.2.1, h.2.2 2⟩

/-- C4 counterexample: `nearestUsableTick(887400, 200)` clamps to
`MAX_TICK = 887272`, which is not a multiple of `200` — the claimed invariant
`result mod s == 0` fails. -/
theorem nearestUsableTick_mod_fails_cex :
    nearestUsableTick 887400 200 = 887272 ∧ (887272 : ℤ) % 200 ≠ 0 := by
  constructor
  · have hr : jsRound ((887400 : ℤ) / (200 : ℤ) : ℚ) = 4437 := by
      norm_num [jsRound]
    unfold nearestUsableTick MIN_TICK MAX_TICK
    rw [hr]
    omega
  · decide

/-- C2 counterexample: starting from capital 1 initialised 50/50 at price 100,
one bid fill (target 100, size 0.0001 BTC) settled at current price 110
followed by the loop's unrealized-PnL update gives
`totalValue(110) = 1.05` but
`initialCapital + realized + unrealized = 1 + 0.00001 + 0.05 = 1.05001`:
the claimed conservation identity fails at this cycle boundary. -/
theorem conservation_identity_fails_cex :
    (let mm := updateUnrealized (processFilledOrder
        ⟨inventoryInit 1 100, 1, ⟨0, 0, 0⟩⟩
        ⟨.bid, 100, 1/10000, 99, 101, .filled⟩ 110) 110
     getTotalValueBTC mm.inventory 110
       ≠ mm.initialCapital + mm.pnl.realized + mm.pnl.unrealized) := by
  norm_num [getTotalValueBTC, updateUnrealized, processFilledOrder, recordFill,
    inventoryInit]

/-- C2 (amended): the loop sets
`unrealized = totalValue(currentPrice) - initialCapital` — `realized` is not
subtracted — so the conservation law that actually holds at every cycle
boundary is `totalValue(price) = initialCapital + unrealized`; moreover
applying a fill at the current price leaves `totalValue` at that price
unchanged (so the law is stable under any sequence of fills, and the source's
`rebalance` only logs, never moving balances).  The spec's identity
`totalValue = initialCapital + realized + unrealized` fails whenever
`realized ≠ 0`. -/
theorem pnl_unrealized_and_conservation :
    (∀ (mm : MarketMaker) (P : ℚ),
       (updateUnrealized mm P).pnl.unrealized
         = getTotalValueBTC mm.inventory P - mm.initialCapital) ∧
    (∀ (mm : MarketMaker) (P : ℚ),
       getTotalValueBTC (updateUnrealized mm P).inventory P
         = mm.initialCapital + (updateUnrealized mm P).pnl.unrealized) ∧
    (∀ (mm : MarketMaker) (fill : MMPosition) (P : ℚ), P ≠ 0 →
       getTotalValueBTC (processFilledOrder mm fill P).inventory P
         = getTotalValueBTC mm.inventory P) := by
  refine ⟨?_, ?_, ?_⟩
  · intro mm P
    simp [updateUnrealized]
  · intro mm P
    simp [updateUnrealized, getTotalValueBTC]
  · intro mm fill P hP
    rcases fill with ⟨side, tp, size, lp, up, st⟩
    cases side <;>
      simp [processFilledOrder, recordFill, getTotalValueBTC] <;>
      field_simp <;> ring

/-- C2 witness: a concrete bid fill settled at price 100 conserves the
portfolio value at that price. -/
theorem pnl_unrealized_and_conservation_witness :
    getTotalValueBTC (processFilledOrder ⟨⟨1, 1, 1/2, []⟩, 1, ⟨0, 0, 0⟩⟩
        ⟨.bid, 100, 1/10000, 99, 101, .filled⟩ 100).inventory 100
      = getTotalValueBTC ⟨1, 1, 1/2, []⟩ 100 :=
  pnl_unrealized_and_conservation.2.2 ⟨⟨1, 1, 1/2, []⟩, 1, ⟨0, 0, 0⟩⟩
    ⟨.bid, 100, 1/10000, 99, 101, .filled⟩ 100 (by norm_num)

/-- Helper: the skew multiplier of `calculateSpread` (×1.2 when the imbalance
is more than 10% either way) is monotone in the absolute imbalance. -/
theorem skewFactor_mono (i1 i2 : ℚ) (h : |i1| ≤ |i2|) :
    (if i1 > 0.1 then (1.2 : ℚ) else if i1 < -0.1 then 1.2 else 1)
      ≤ (if i2 > 0.1 then (1.2 : ℚ) else if i2 < -0.1 then 1.2 else 1) := by
  rcases abs_cases i1 with ⟨e1, _⟩ | ⟨e1, _⟩ <;>
    rcases abs_cases i2 with ⟨e2, _⟩ | ⟨e2, _⟩ <;>
    rw [e1, e2] at h <;>
    split_ifs <;> linarith

/-- Helper: `calculateSpread`'s clamped spread written as a single product of
the base spread and the three step multipliers. -/
theorem calculateSpread_spreadBPS_eq (inv : InventoryTracker) (P vol v24 : ℚ) :
    (calculateSpread inv P vol v24).spreadBPS
      = max minSpreadBPS (min maxSpreadBPS
          (baseSpreadBPS
            * (if getImbalance inv P > 0.1 then (1.2 : ℚ)
               else if getImbalance inv P < -0.1 then 1.2 else 1)
            * (if vol > 0.05 then (1.5 : ℚ) else 1)
            * (if v24 < 100 then (1.3 : ℚ) else 1))) := by
  simp only [calculateSpread]
  split_ifs <;> ring_nf

/-- Helper: the clamped spread always lies in `[minSpreadBPS, maxSpreadBPS]`. -/
theorem spreadBPS_mem (inv : InventoryTracker) (P vol v24 : ℚ) :
    minSpreadBPS ≤ (calculateSpread inv P vol v24).spreadBPS ∧
    (calculateSpread inv P vol v24).spreadBPS ≤ maxSpreadBPS := by
  simp only [calculateSpread]
  exact ⟨le_max_left _ _,
    max_le (by norm_num [minSpreadBPS, maxSpreadBPS]) (min_le_left _ _)⟩

/-- Helper: both half-spreads returned by `calculateSpread` are half the
clamped spread. -/
theorem calculateSpread_halves (inv : InventoryTracker) (P vol v24 : ℚ) :
    (calculateSpread inv P vol v24).bidSpread
        = (calculateSpread inv P vol v24).spreadBPS / 2 ∧
    (calculateSpread inv P vol v24).askSpread
        = (calculateSpread inv P vol v24).spreadBPS / 2 := by
  simp [calculateSpread]

/-- C7: holding the other inputs fixed, the spread produced by
`SpreadCalculator.calculateSpread` is monotonically non-decreasing in the
absolute inventory imbalance and in the volatility estimate, and the final
value is always clamped into `[minSpreadBps, maxSpreadBps]`. -/
theorem calculateSpread_monotone_and_clamped :
    (∀ (inv1 inv2 : InventoryTracker) (P1 P2 vol v24 : ℚ),
       |getImbalance inv1 P1| ≤ |getImbalance inv2 P2| →
       (calculateSpread inv1 P1 vol v24).spreadBPS
         ≤ (calculateSpread inv2 P2 vol v24).spreadBPS) ∧
    (∀ (inv : InventoryTracker) (P vol1 vol2 v24 : ℚ), vol1 ≤ vol2 →
       (calculateSpread inv P vol1 v24).spreadBPS
         ≤ (calculateSpread inv P vol2 v24).spreadBPS) ∧
    (∀ (inv : InventoryTracker) (P vol v24 : ℚ),
       minSpreadBPS ≤ (calculateSpread inv P vol v24).spreadBPS ∧
       (calculateSpread inv P vol v24).spreadBPS ≤ maxSpreadBPS) := by
  refine ⟨?_, ?_, spreadBPS_mem⟩
  · intro inv1 inv2 P1 P2 vol v24 h
    rw [calculateSpread_spreadBPS_eq, calculateSpread_spreadBPS_eq]
    refine max_le_max le_rfl (min_le_min le_rfl ?_)
    have hfac := skewFactor_mono _ _ h
    have hbase : (0 : ℚ) ≤ baseSpreadBPS := by norm_num [baseSpreadBPS]
    have hb : (0 : ℚ) ≤ (if vol > 0.05 then (1.5 : ℚ) else 1) := by
      split_ifs <;> norm_num
    have hc : (0 : ℚ) ≤ (if v24 < 100 then (1.3 : ℚ) else 1) := by
      split_ifs <;> norm_num
    exact mul_le_mul_of_nonneg_right
      (mul_le_mul_of_nonneg_right (mul_le_mul_of_nonneg_left hfac hbase) hb) hc
  · intro inv P vol1 vol2 v24 h
    rw [calculateSpread_spreadBPS_eq, calculateSpread_spreadBPS_eq]
    refine max_le_max le_rfl (min_le_min le_rfl ?_)
    have hfac : (if vol1 > 0.05 then (1.5 : ℚ) else 1)
        ≤ (if vol2 > 0.05 then (1.5 : ℚ) else 1) := by
      split_ifs <;> linarith
    have ha : (0 : ℚ) ≤ baseSpreadBPS
        * (if getImbalance inv P > 0.1 then (1.2 : ℚ)
           else if getImbalance inv P < -0.1 then 1.2 else 1) := by
      split_ifs <;> norm_num [baseSpreadBPS]
    have hc : (0 : ℚ) ≤ (if v24 < 100 then (1.3 : ℚ) else 1) := by
      split_ifs <;> norm_num
    exact mul_le_mul_of_nonneg_right (mul_le_mul_of_nonneg_left hfac ha) hc

/-- C7 witness: a balanced book (imbalance 0) never quotes a wider spread
than a book whose imbalance is 1/4, and raising volatility from 0 to 1 does
not shrink the spread; the clamp bounds hold at a concrete input. -/
theorem calculateSpread_monotone_and_clamped_witness :
    ((calculateSpread ⟨1/2, 50, 1/2, []⟩ 1 0 500).spreadBPS
       ≤ (calculateSpread ⟨3/4, 25, 1/2, []⟩ 1 0 500).spreadBPS) ∧
    ((calculateSpread ⟨1/2, 50, 1/2, []⟩ 1 0 500).spreadBPS
       ≤ (calculateSpread ⟨1/2, 50, 1/2, []⟩ 1 1 500).spreadBPS) ∧
    minSpreadBPS ≤ (calculateSpread ⟨1/2, 50, 1/2, []⟩ 1 0 500).spreadBPS :=
  ⟨calculateSpread_monotone_and_clamped.1 ⟨1/2, 50, 1/2, []⟩ ⟨3/4, 25, 1/2, []⟩
      1 1 0 500 (by norm_num [getImbalance]),
   calculateSpread_monotone_and_clamped.2.1 ⟨1/2, 50, 1/2, []⟩ 1 0 1 500
      (by norm_num),
   (calculateSpread_monotone_and_clamped.2.2 ⟨1/2, 50, 1/2, []⟩ 1 0 500).1⟩

/-- Helper: for any spread object with strictly positive half-spreads,
`getQuotes` quotes a bid strictly below and an ask strictly above the mid. -/
theorem getQuotes_of_pos (inv : InventoryTracker) (P : ℚ) (spread : SpreadResult)
    (hp : 0 < P) (hb : 0 < spread.bidSpread) (ha : 0 < spread.askSpread) :
    (getQuotes P spread inv).bid < P ∧ P < (getQuotes P spread inv).ask := by
  simp only [getQuotes]
  split_ifs <;> constructor <;> simp only [] <;> nlinarith

/-- C10: for every positive current price and every inventory state, the
quotes computed from that cycle's `calculateSpread` output never cross:
`bid < currentPrice < ask`, hence `bid < ask`. -/
theorem getQuotes_never_cross (inv : InventoryTracker) (currentPrice vol v24 : ℚ)
    (hp : 0 < currentPrice) :
    (getQuotes currentPrice (calculateSpread inv currentPrice vol v24) inv).bid
        < currentPrice ∧
    currentPrice
        < (getQuotes currentPrice (calculateSpread inv currentPrice vol v24) inv).ask ∧
    (getQuotes currentPrice (calculateSpread inv currentPrice vol v24) inv).bid
        < (getQuotes currentPrice (calculateSpread inv currentPrice vol v24) inv).ask := by
  obtain ⟨hlo, -⟩ := spreadBPS_mem inv currentPrice vol v24
  obtain ⟨hbe, hae⟩ := calculateSpread_halves inv currentPrice vol v24
  have hmin : (50 : ℚ) ≤ (calculateSpread inv currentPrice vol v24).spreadBPS := by
    simpa [minSpreadBPS] using hlo
  have hb : 0 < (calculateSpread inv currentPrice vol v24).bidSpread := by
    rw [hbe]; linarith
  have ha : 0 < (calculateSpread inv currentPrice vol v24).askSpread := by
    rw [hae]; linarith
  obtain ⟨h1, h2⟩ := getQuotes_of_pos inv currentPrice
    (calculateSpread inv currentPrice vol v24) hp hb ha
  exact ⟨h1, h2, lt_trans h1 h2⟩

/-- C10 witness: at price 1 with a balanced inventory, the produced quotes
straddle the mid. -/
theorem getQuotes_never_cross_witness :
    (getQuotes 1 (calculateSpread ⟨1/2, 50, 1/2, []⟩ 1 0 500) ⟨1/2, 50, 1/2, []⟩).bid < 1 ∧
    (1 : ℚ) < (getQuotes 1 (calculateSpread ⟨1/2, 50, 1/2, []⟩ 1 0 500) ⟨1/2, 50, 1/2, []⟩).ask ∧
    (getQuotes 1 (calculateSpread ⟨1/2, 50, 1/2, []⟩ 1 0 500) ⟨1/2, 50, 1/2, []⟩).bid
      < (getQuotes 1 (calculateSpread ⟨1/2, 50, 1/2, []⟩ 1 0 500) ⟨1/2, 50, 1/2, []⟩).ask :=
  getQuotes_never_cross ⟨1/2, 50, 1/2, []⟩ 1 0 500 (by norm_num)

/-- Helper: `getImbalance` without its zero-value guard. -/
theorem getImbalance_eq (inv : InventoryTracker) (P : ℚ)
    (h : inv.btc + inv.rad / 100 * P ≠ 0) :
    getImbalance inv P = inv.btc / (inv.btc + inv.rad / 100 * P) - inv.targetRatio := by
  simp [getImbalance, h]

/-- C8 counterexample: at price 1 with balances 0.75 BTC / 25 RAD
(total value 1, skew +0.25 against the 0.5 target), `MarketMaker.rebalance`
computes a swap of `1 * 0.25 / 2 = 0.125` BTC; executing it at the current
price leaves skew `0.125`, not the target `0`. -/
theorem mm_rebalance_halves_skew_cex :
    rebalanceSwapAmountBTC ⟨3/4, 25, 1/2, []⟩ 1 = some (1/8) ∧
    getImbalance (execRebalanceSwap ⟨3/4, 25, 1/2, []⟩ (1/8) 1) 1 = 1/8 ∧
    ((1 : ℚ)/8) ≠ 0 := by
  have habs : |(1 : ℚ)/4| = 1/4 := abs_of_pos (by norm_num)
  refine ⟨?_, ?_, by norm_num⟩
  · norm_num [rebalanceSwapAmountBTC, getImbalance, getTotalValueBTC,
      maxInventorySkew, habs]
  · norm_num [execRebalanceSwap, getImbalance, getTotalValueBTC]

/-- C8 (amended): the two rebalancers differ.  `MarketMaker.rebalance`
computes `totalValue * |imbalance| / 2`, and executing that swap at the
current price moves the skew to exactly half its previous value — not to the
target.  `VolumeBot.rebalanceIfNeeded`, by contrast, trades
`totalValue * (currentRatio - targetRatio)` and does land the BTC ratio
exactly on `target.btc` (conserving total value) whenever it fires. -/
theorem rebalance_target_behavior :
    (∀ (inv : InventoryTracker) (P A : ℚ), P ≠ 0 →
       rebalanceSwapAmountBTC inv P = some A →
       getImbalance (execRebalanceSwap inv A P) P = getImbalance inv P / 2) ∧
    (∀ (inv : VBInventory) (P : ℚ) (target : VBTarget), P ≠ 0 →
       inv.btc + inv.token * P ≠ 0 →
       |inv.btc / (inv.btc + inv.token * P) - target.btc| > rebalanceThreshold →
       ((rebalanceIfNeeded inv P target).btc
           + (rebalanceIfNeeded inv P target).token * P
         = inv.btc + inv.token * P) ∧
       (rebalanceIfNeeded inv P target).btc
           / ((rebalanceIfNeeded inv P target).btc
               + (rebalanceIfNeeded inv P target).token * P)
         = target.btc) := by
  constructor
  · intro inv P A hP hA
    by_cases htv : inv.btc + inv.rad / 100 * P = 0
    · exfalso
      have h0 : getImbalance inv P = 0 := by simp [getImbalance, htv]
      rw [rebalanceSwapAmountBTC, h0] at hA
      norm_num [maxInventorySkew] at hA
      exact Option.noConfusion hA
    · rw [rebalanceSwapAmountBTC] at hA
      split_ifs at hA with himb
      · rw [Option.some_inj] at hA
        have himbeq := getImbalance_eq inv P htv
        have htv' : ∀ a : ℚ, (inv.btc - a) + (inv.rad + a / P * 100) / 100 * P
            = inv.btc + inv.rad / 100 * P := by
          intro a
          field_simp
          ring
        have htv'' : ∀ a : ℚ, (inv.btc + a) + (inv.rad - a / P * 100) / 100 * P
            = inv.btc + inv.rad / 100 * P := by
          intro a
          field_simp
          ring
        by_cases hip : getImbalance inv P > 0
        · have hex : execRebalanceSwap inv A P
              = { inv with btc := inv.btc - A, rad := inv.rad + A / P * 100 } := by
            rw [execRebalanceSwap, if_pos hip]
          rw [hex]
          have h2 := getImbalance_eq
            { inv with btc := inv.btc - A, rad := inv.rad + A / P * 100 } P
            (by simpa using (htv' A) ▸ htv)
          simp only at h2
          rw [h2, htv' A, ← hA, abs_of_pos hip, himbeq, getTotalValueBTC]
          set V := inv.btc + inv.rad / 100 * P with hVdef
          field_simp
          all_goals ring
        · have hin : getImbalance inv P < 0 := by
            rcases lt_trichotomy (getImbalance inv P) 0 with h | h | h
            · exact h
            · exfalso
              rw [h] at himb
              norm_num [maxInventorySkew] at himb
            · exact absurd h hip
          have hex : execRebalanceSwap inv A P
              = { inv with btc := inv.btc + A, rad := inv.rad - A / P * 100 } := by
            rw [execRebalanceSwap, if_neg hip]
          rw [hex]
          have h2 := getImbalance_eq
            { inv with btc := inv.btc + A, rad := inv.rad - A / P * 100 } P
            (by simpa using (htv'' A) ▸ htv)
          simp only at h2
          rw [h2, htv'' A, ← hA, abs_of_neg hin, himbeq, getTotalValueBTC]
          set V := inv.btc + inv.rad / 100 * P with hVdef
          field_simp
          all_goals ring
  · intro inv P target hP htv hskew
    rw [rebalanceIfNeeded, if_pos hskew]
    by_cases hgt : inv.btc / (inv.btc + inv.token * P) > target.btc
    · rw [if_pos hgt]
      have hval : (marketBuy inv
            ((inv.btc + inv.token * P)
              * (inv.btc / (inv.btc + inv.token * P) - target.btc)) P).btc
          + (marketBuy inv
            ((inv.btc + inv.token * P)
              * (inv.btc / (inv.btc + inv.token * P) - target.btc)) P).token * P
          = inv.btc + inv.token * P := by
        simp only [marketBuy]
        field_simp
        all_goals ring
      refine ⟨hval, ?_⟩
      rw [hval]
      simp only [marketBuy]
      field_simp
    · rw [if_neg hgt]
      have hval : (marketSell inv
            ((inv.btc + inv.token * P)
              * (target.btc - inv.btc / (inv.btc + inv.token * P)) / P) P).btc
          + (marketSell inv
            ((inv.btc + inv.token * P)
              * (target.btc - inv.btc / (inv.btc + inv.token * P)) / P) P).token * P
          = inv.btc + inv.token * P := by
        simp only [marketSell]
        field_simp
        all_goals ring
      refine ⟨hval, ?_⟩
      rw [hval]
      simp only [marketSell]
      field_simp

/-- C8 witness: at price 1, balances 0.75 BTC / 0.25 token and target 50/50,
`VolumeBot.rebalanceIfNeeded` lands the BTC ratio exactly on the target. -/
theorem rebalance_target_behavior_witness :
    ((rebalanceIfNeeded ⟨3/4, 1/4⟩ 1 ⟨1/2, 1/2⟩).btc
        + (rebalanceIfNeeded ⟨3/4, 1/4⟩ 1 ⟨1/2, 1/2⟩).token * 1
      = (3 : ℚ)/4 + 1/4 * 1) ∧
    (rebalanceIfNeeded ⟨3/4, 1/4⟩ 1 ⟨1/2, 1/2⟩).btc
        / ((rebalanceIfNeeded ⟨3/4, 1/4⟩ 1 ⟨1/2, 1/2⟩).btc
            + (rebalanceIfNeeded ⟨3/4, 1/4⟩ 1 ⟨1/2, 1/2⟩).token * 1)
      = (1 : ℚ)/2 := by
  have habs : |(1 : ℚ)/4| = 1/4 := abs_of_pos (by norm_num)
  exact rebalance_target_behavior.2 ⟨3/4, 1/4⟩ 1 ⟨1/2, 1/2⟩ (by norm_num)
    (by norm_num) (by norm_num [rebalanceThreshold, habs])

/-- C9 counterexample: ping-pong enabled with `reverseTradeRatio = 0.5`,
bid fill of 1 BTC for 100 tokens at price 0.01, reverse trade executed at the
same price: the token inventory moves from 100 to 150 (it is not left
unchanged), the BTC inventory ends at 0.5 — not reduced merely by the
0.02 round-trip fee — and `tradingFeesPaid` grows by the fee of one leg only
(`1 * radfiFeeRate = 0.01`, not 0.02). -/
theorem reverse_trade_inventory_cex :
    (processFillAndReverse ⟨true, 1/2⟩ ⟨⟨1, 100⟩, ⟨0, 0, 0, 0⟩⟩
        ⟨.bid, 1/100, 1, 100, 1⟩ (1/100)).inventory.token ≠ (100 : ℚ) ∧
    (processFillAndReverse ⟨true, 1/2⟩ ⟨⟨1, 100⟩, ⟨0, 0, 0, 0⟩⟩
        ⟨.bid, 1/100, 1, 100, 1⟩ (1/100)).inventory.btc = 1/2 ∧
    (processFillAndReverse ⟨true, 1/2⟩ ⟨⟨1, 100⟩, ⟨0, 0, 0, 0⟩⟩
        ⟨.bid, 1/100, 1, 100, 1⟩ (1/100)).metrics.tradingFeesPaid = 1/100 ∧
    ((1 : ℚ)/2) ≠ 1 - 2 * (1 * radfiFeeRate) := by
  norm_num [processFillAndReverse, marketSell, radfiFeeRate]

/-- C9 (amended): with ping-pong enabled, each detected fill of value `X` adds
exactly `2X` to both volume counters and executes a reverse trade of fraction
`r = reverseTradeRatio` of the fill.  The net asset inventory is left changed
by `(1-r)` of the filled token amount on a bid (mirrored on an ask) — so it is
unchanged only when `r = 1`, not at the configured `r = 0.5`; `feesPaid` is
charged `X * radfiFeeRate` for the original leg only (the reverse trade is
never fee-charged), and the inventory balances themselves pay no fees at
all. -/
theorem processFillAndReverse_accounting (cfg : VBConfig) (st : VBState)
    (fill : VBFill) (P : ℚ) (hpp : cfg.pingPongEnabled = true) :
    ((processFillAndReverse cfg st fill P).metrics.volumeGenerated
        = st.metrics.volumeGenerated + fill.value * 2) ∧
    ((processFillAndReverse cfg st fill P).metrics.volumeGenerated24h
        = st.metrics.volumeGenerated24h + fill.value * 2) ∧
    ((processFillAndReverse cfg st fill P).metrics.tradingFeesPaid
        = st.metrics.tradingFeesPaid + fill.value * radfiFeeRate) ∧
    (fill.side = .bid →
      (processFillAndReverse cfg st fill P).inventory.token
          = st.inventory.token + (1 - cfg.reverseTradeRatio) * fill.sizeToken ∧
      (processFillAndReverse cfg st fill P).inventory.btc
          = st.inventory.btc - fill.sizeBTC
            + fill.sizeToken * cfg.reverseTradeRatio * P) ∧
    (fill.side = .ask →
      (processFillAndReverse cfg st fill P).inventory.token
          = st.inventory.token - fill.sizeToken
            + fill.sizeBTC * cfg.reverseTradeRatio / P ∧
      (processFillAndReverse cfg st fill P).inventory.btc
          = st.inventory.btc + fill.sizeBTC - fill.sizeBTC * cfg.reverseTradeRatio) := by
  rcases fill with ⟨side, price, sBTC, sTok, val⟩
  cases side <;> simp [processFillAndReverse, marketSell, marketBuy, hpp]
  all_goals ring_nf

/-- C9 witness: a concrete ask fill of value 1 with ping-pong enabled adds
exactly 2 to the total generated-volume counter. -/
theorem processFillAndReverse_accounting_witness :
    (processFillAndReverse ⟨true, 1/2⟩ ⟨⟨1, 100⟩, ⟨0, 0, 0, 0⟩⟩
        ⟨.ask, 1/100, 1, 100, 1⟩ (1/100)).metrics.volumeGenerated = 0 + 1 * 2 :=
  (processFillAndReverse_accounting ⟨true, 1/2⟩ ⟨⟨1, 100⟩, ⟨0, 0, 0, 0⟩⟩
      ⟨.ask, 1/100, 1, 100, 1⟩ (1/100) rfl).1

/-- Helper: the log of the tick base is nonzero. -/
theorem log_base_ne_zero : Real.log 1.0001 ≠ 0 := by
  intro h
  rcases Real.log_eq_zero.mp h with h1 | h1 | h1 <;> norm_num at h1

/-- C5 counterexample: at `p = √1.0001` the log-ratio is exactly `1/2`, so the
source's `Math.floor` yields tick 0 while the spec's `round` formula yields
tick 1 — `priceToTick` does not return `round(log(price)/log(base))`. -/
theorem priceToTick_round_spec_cex :
    priceToTick (Real.sqrt 1.0001) = .ok 0 ∧
    specPriceToTick (Real.sqrt 1.0001) = .ok 1 ∧
    priceToTick (Real.sqrt 1.0001) ≠ specPriceToTick (Real.sqrt 1.0001) := by
  have hpos : (0 : ℝ) < Real.sqrt 1.0001 := Real.sqrt_pos.mpr (by norm_num)
  have hratio : Real.log (Real.sqrt 1.0001) / Real.log 1.0001 = 1/2 := by
    rw [Real.log_sqrt (by norm_num)]
    field_simp
    ring
  have h1 : priceToTick (Real.sqrt 1.0001) = .ok 0 := by
    simp only [priceToTick, if_neg (not_le.mpr hpos)]
    rw [hratio]
    have hfl : ⌊(1/2 : ℝ)⌋ = 0 := by norm_num
    rw [hfl]
    congr 1
  have h2 : specPriceToTick (Real.sqrt 1.0001) = .ok 1 := by
    simp only [specPriceToTick, if_neg (not_le.mpr hpos)]
    rw [hratio]
    have hrd : round (1/2 : ℝ) = 1 := by norm_num [round_eq]
    rw [hrd]
    congr 1
  exact ⟨h1, h2, by rw [h1, h2]; simp⟩

/-- C5 (amended): `priceToTick` fails with the invalid-price error for every
`price ≤ 0`, and for every `price > 0` returns
`floor(log(price)/log(1.0001))` — floor, not round — clamped to
`[MIN_TICK, MAX_TICK]`; the returned tick always lies within the bounds. -/
theorem priceToTick_floor_clamped (p : ℝ) :
    (p ≤ 0 → priceToTick p = .error .invalidPrice) ∧
    (0 < p →
      priceToTick p
          = .ok (max MIN_TICK (min MAX_TICK ⌊Real.log p / Real.log 1.0001⌋)) ∧
      ∀ t, priceToTick p = .ok t → MIN_TICK ≤ t ∧ t ≤ MAX_TICK) := by
  constructor
  · intro hp
    simp only [priceToTick, if_pos hp]
  · intro hp
    have hne := not_le.mpr hp
    refine ⟨by simp only [priceToTick, if_neg hne], ?_⟩
    intro t ht
    simp only [priceToTick, if_neg hne, Except.ok.injEq] at ht
    unfold MIN_TICK MAX_TICK at ht ⊢
    omega

/-- C5 witness: a non-positive price is rejected. -/
theorem priceToTick_floor_clamped_witness :
    priceToTick (-1) = .error .invalidPrice :=
  (priceToTick_floor_clamped (-1)).1 (by norm_num)

/-- C6: `tickToPrice` is total (it is a function on all of `ℤ`) and strictly
monotone, and for every price `p > 0` whose log-ratio floor lies within the
tick bounds (so clamping is inactive), the round trip
`tickToPrice (priceToTick p)` is within one tick's relative error of `p`:
`tickToPrice t ≤ p < tickToPrice t * 1.0001`. -/
theorem tickToPrice_monotone_and_roundtrip :
    (∀ t1 t2 : ℤ, t1 < t2 → tickToPrice t1 < tickToPrice t2) ∧
    (∀ (p : ℝ) (t : ℤ), 0 < p →
       MIN_TICK ≤ ⌊Real.log p / Real.log 1.0001⌋ →
       ⌊Real.log p / Real.log 1.0001⌋ ≤ MAX_TICK →
       priceToTick p = .ok t →
       tickToPrice t ≤ p ∧ p < tickToPrice t * 1.0001) := by
  constructor
  · intro t1 t2 h
    exact zpow_lt_zpow_right₀ (by norm_num) h
  · intro p t hp hlo hhi hok
    simp only [priceToTick, if_neg (not_le.mpr hp), Except.ok.injEq] at hok
    have ht : t = ⌊Real.log p / Real.log 1.0001⌋ := by
      unfold MIN_TICK MAX_TICK at hok
      unfold MIN_TICK at hlo
      unfold MAX_TICK at hhi
      omega
    subst ht
    rw [Real.log_div_log]
    have hrt : (1.0001 : ℝ) ^ Real.logb 1.0001 p = p :=
      Real.rpow_logb (by norm_num) (by norm_num) hp
    constructor
    · calc tickToPrice ⌊Real.logb 1.0001 p⌋
          = (1.0001 : ℝ) ^ (⌊Real.logb 1.0001 p⌋ : ℤ) := rfl
        _ ≤ (1.0001 : ℝ) ^ Real.logb 1.0001 p := by
            rw [← Real.rpow_intCast 1.0001 ⌊Real.logb 1.0001 p⌋]
            exact (Real.rpow_le_rpow_left_iff (by norm_num)).mpr (Int.floor_le _)
        _ = p := hrt
    · calc p = (1.0001 : ℝ) ^ Real.logb 1.0001 p := hrt.symm
        _ < (1.0001 : ℝ) ^ (⌊Real.logb 1.0001 p⌋ : ℤ) * 1.0001 := by
            rw [← zpow_add_one₀ (by norm_num : (1.0001 : ℝ) ≠ 0),
              ← Real.rpow_intCast 1.0001 (⌊Real.logb 1.0001 p⌋ + 1)]
            refine (Real.rpow_lt_rpow_left_iff (by norm_num)).mpr ?_
            push_cast
            exact Int.lt_floor_add_one _
        _ = tickToPrice ⌊Real.logb 1.0001 p⌋ * 1.0001 := rfl

/-- C6 witness: the monotone part at ticks 0 < 1, and the round trip at
`p = 1` (tick 0): `tickToPrice 0 ≤ 1 < tickToPrice 0 * 1.0001`. -/
theorem tickToPrice_monotone_and_roundtrip_witness :
    tickToPrice 0 < tickToPrice 1 ∧
    (tickToPrice 0 ≤ 1 ∧ (1 : ℝ) < tickToPrice 0 * 1.0001) := by
  have hfl : ⌊Real.log (1 : ℝ) / Real.log 1.0001⌋ = 0 := by
    simp [Real.log_one]
  refine ⟨tickToPrice_monotone_and_roundtrip.1 0 1 (by norm_num),
    tickToPrice_monotone_and_roundtrip.2 1 0 (by norm_num) ?_ ?_ ?_⟩
  · rw [hfl]; decide
  · rw [hfl]; decide
  · simp only [priceToTick, if_neg (by norm_num : ¬(1 : ℝ) ≤ 0)]
    rw [hfl]
    congr 1

end RadLabs
